import Mathlib

/-!
# Verification of the semantic-mcp runtime engine specification

This file embeds the data model and operations of the semantic-mcp
repository (an MCP runtime: session registry, task executor, content
store, and the tool-surface glue in `src/mcp_runtime/mcp_server.py`,
`src/mcpruntime/mcp_server.py` and `src/mcp_runtime/models.py`) as Lean
definitions, and proves the specified properties about them.

The repository ships the tool-surface glue, the pydantic models and the
test suite; the engine internals (`runtime_engine.py`,
`services/content_manager.py`) are not among the shipped sources, so the
corresponding definitions are modelled from the specification's words
(each such definition's doc comment says so).  Everything taken from a
shipped source file is translated directly from that file.
-/

namespace ContentManager

/-- A content block, as handled by `ContentManager.process_content`:
a text block, or an image/audio block carrying base64 data and a MIME
type (`{"type": "text", "text": ...}` / `{"type": "image", "data": ...,
"mimeType": ...}` dictionaries in the Python sources and tests). -/
inductive ContentBlock where
  | text (s : String)
  | image (data : String) (mimeType : String)
  | audio (data : String) (mimeType : String)
deriving DecidableEq, Repr

/-- Modelled from the spec: `ContentManager` is not among the shipped
sources.  The spec says a text block's size is "an approximate token
count — e.g., derived from word or character count"; the model takes the
character count as the size estimate, measured in the same units as the
budget. -/
def estimateSize (s : String) : Nat := s.length

/-- Modelled from the spec: split a character sequence into ordered
chunks, each of at most `budget` characters (`max budget 1` keeps the
split well-founded for a zero budget; every use has `0 < budget`). -/
def chunksOf (budget : Nat) : List Char → List (List Char)
  | [] => []
  | c :: cs =>
    (c :: cs).take (max budget 1) :: chunksOf budget ((c :: cs).drop (max budget 1))
termination_by l => l.length
decreasing_by
  simp only [List.length_drop, List.length_cons]
  omega

/-- Modelled from the spec: a stored content entry — `kind`
(text/image/audio), the ordered chunk payloads, and a MIME type. -/
structure ContentEntry where
  kind : String
  chunks : List String
  mimeType : String
deriving DecidableEq, Repr

/-- Modelled from the spec: the content store, keyed by reference id.
The Python store keys entries by fresh uuid strings; the model draws
fresh ids from the `nextId` counter, which preserves the one property
the uuids provide: a new entry's id differs from every id handed out
before. -/
structure ContentStore where
  entries : List (Nat × ContentEntry)
  nextId : Nat
deriving DecidableEq, Repr

def emptyStore : ContentStore := ⟨[], 0⟩

/-- Modelled from the spec: persist an entry under a fresh reference id
(write-once; ids are never reused). -/
def storeEntry (st : ContentStore) (e : ContentEntry) : Nat × ContentStore :=
  (st.nextId, ⟨(st.nextId, e) :: st.entries, st.nextId + 1⟩)

def getEntry (st : ContentStore) (rid : Nat) : Option ContentEntry :=
  (st.entries.find? (fun p => p.1 == rid)).map (·.2)

def refMarker (rid : Nat) : String :=
  "[Reference: " ++ toString rid ++ "]"

def truncationNote (origSize nChunks : Nat) : String :=
  "[Content truncated: original size " ++ toString origSize ++ " tokens, "
    ++ toString nChunks ++ " chunks]"

/-- Modelled from the spec: the marker block text replacing an offloaded
text block "states the reference id and the truncation summary (original
size, chunk count)". -/
def textMarker (rid origSize nChunks : Nat) : String :=
  refMarker rid ++ " " ++ truncationNote origSize nChunks

def imageMarker (rid : Nat) (mime : String) : String :=
  "[Image: " ++ mime ++ "] " ++ refMarker rid

def audioMarker (rid : Nat) (mime : String) : String :=
  "[Audio: " ++ mime ++ "] " ++ refMarker rid

/-- The ordered chunks an over-budget text is split into. -/
def textChunks (budget : Nat) (s : String) : List String :=
  (chunksOf budget s.data).map String.mk

/-- Modelled from the spec: process one content block.  A text block
within budget passes through unchanged; an over-budget text block is
chunked, persisted under a fresh reference id and replaced by a single
marker block; an image/audio block is always persisted as a single-chunk
entry and replaced by a marker block.  (The optional external captioning
collaborator behind `describe_images` is outside the modelled core.) -/
def processBlock (budget : Nat) (st : ContentStore) (b : ContentBlock) :
    ContentBlock × ContentStore :=
  match b with
  | ContentBlock.text s =>
    if estimateSize s ≤ budget then (b, st)
    else
      let chunks := textChunks budget s
      let r := storeEntry st ⟨"text", chunks, "text/plain"⟩
      (ContentBlock.text (textMarker r.1 (estimateSize s) chunks.length), r.2)
  | ContentBlock.image data mime =>
    let r := storeEntry st ⟨"image", [data], mime⟩
    (ContentBlock.text (imageMarker r.1 mime), r.2)
  | ContentBlock.audio data mime =>
    let r := storeEntry st ⟨"audio", [data], mime⟩
    (ContentBlock.text (audioMarker r.1 mime), r.2)

/-- Modelled from the spec: run over an ordered sequence of content
blocks, threading the store, and return the possibly-rewritten
sequence. -/
def process_content (budget : Nat) (st : ContentStore) :
    List ContentBlock → List ContentBlock × ContentStore
  | [] => ([], st)
  | b :: rest =>
    let rb := processBlock budget st b
    let rr := process_content budget rb.2 rest
    (rb.1 :: rr.1, rr.2)

/-- Rebuild a returned block of the entry's kind around a payload. -/
def chunkPayload (e : ContentEntry) (payload : String) : ContentBlock :=
  if e.kind = "image" then ContentBlock.image payload e.mimeType
  else if e.kind = "audio" then ContentBlock.audio payload e.mimeType
  else ContentBlock.text payload

/-- Modelled from the spec: retrieve offloaded content.  An unknown
`ref_id` fails `ReferenceNotFound`; a supplied chunk index out of
`[0, total_chunks)` fails `ChunkIndexOutOfRange`; a valid index returns
that chunk's payload; with the index omitted the entry's canonical
payload is returned (the spec leaves multi-chunk canonical payloads as
an open design choice; the model fixes it as the concatenation of all
chunks). -/
def get_content (st : ContentStore) (rid : Nat) (chunkIndex : Option Nat) :
    Except String ContentBlock :=
  match getEntry st rid with
  | none => Except.error "ReferenceNotFound"
  | some e =>
    match chunkIndex with
    | some i =>
      if h : i < e.chunks.length then
        Except.ok (chunkPayload e (e.chunks.get ⟨i, h⟩))
      else Except.error "ChunkIndexOutOfRange"
    | none => Except.ok (chunkPayload e (String.join e.chunks))

end ContentManager

/-- `McpStartupConfig` from `src/mcp_runtime/models.py`: the startup
configuration fetched from the discovery service.  The float `timeout`
field (default `30.0`) is modelled as a rational. -/
structure McpStartupConfig where
  server_name : String
  transport : String := "stdio"
  command : Option String := none
  args : List String := []
  env : List (String × String) := []
  url : Option String := none
  headers : List (String × String) := []
  timeout : Rat := 30
deriving DecidableEq, Repr

/-- Python truthiness of an `Optional[str]`: `None` and the empty string
are falsy (`not self.command` in `validate_transport`). -/
def isFalsy : Option String → Bool
  | none => true
  | some s => s.isEmpty

/-- `McpStartupConfig.validate_transport` from `src/mcp_runtime/models.py`
(a pydantic after-validator: it runs when the config object is
constructed, before any use): a stdio config without a command and an
http config without a url are rejected with the source's messages;
everything else is returned unchanged. -/
def validate_transport (c : McpStartupConfig) : Except String McpStartupConfig :=
  if c.transport = "stdio" ∧ isFalsy c.command = true then
    Except.error "stdio transport requires 'command'"
  else if c.transport = "http" ∧ isFalsy c.url = true then
    Except.error "http transport requires 'url'"
  else Except.ok c

/-- A concrete `sse`-transport config carrying no url (transport `"sse"`
is one of the network transports the repository's entry points accept). -/
def sseConfigNoUrl : McpStartupConfig := { server_name := "svc", transport := "sse" }

namespace RuntimeEngine

/-- Modelled from the spec: a task's status — `Queued`/`Running`, or the
terminal `Completed`/`Failed` carrying the stored result payload or
error message (`RuntimeEngine` is not among the shipped sources). -/
inductive TaskStatus where
  | Queued
  | Running
  | Completed (result : String)
  | Failed (error : String)
deriving DecidableEq, Repr

/-- Modelled from the spec: the poll-based result ledger, mapping each
`task_id` to the task's status. -/
structure TaskLedger where
  tasks : List (String × TaskStatus)
deriving DecidableEq, Repr

def lookupTask (L : TaskLedger) (task_id : String) : Option TaskStatus :=
  (L.tasks.find? (fun p => p.1 == task_id)).map (·.2)

/-- Modelled from the spec: `poll(task_id)` — unknown id fails
`TaskNotFound`; `Queued`/`Running` returns "not done yet" with no result
and no error; `Completed` returns the stored result; `Failed` returns
the stored error.  The returned triple `(is_done, result, error)` is
what the tool-surface handlers destructure; the ledger is returned
alongside because polling is a non-destructive read. -/
def poll_task_result (L : TaskLedger) (task_id : String) :
    Except String (Bool × Option String × Option String) × TaskLedger :=
  match lookupTask L task_id with
  | none => (Except.error "TaskNotFound", L)
  | some TaskStatus.Queued => (Except.ok (false, none, none), L)
  | some TaskStatus.Running => (Except.ok (false, none, none), L)
  | some (TaskStatus.Completed r) => (Except.ok (true, some r, none), L)
  | some (TaskStatus.Failed e) => (Except.ok (true, none, some e), L)

/-- Modelled from the spec: a session's status in the Session
Registry. -/
inductive SessionStatus where
  | Starting
  | Running
  | Failed
  | Stopped
deriving DecidableEq, Repr

/-- Modelled from the spec: the Session Registry's map from
`server_name` to the session's status (at most one session per name). -/
structure Registry where
  sessions : List (String × SessionStatus)
deriving DecidableEq, Repr

def lookupSession (reg : Registry) (name : String) : Option SessionStatus :=
  (reg.sessions.find? (fun p => p.1 == name)).map (·.2)

/-- Record `name`'s session status, replacing any existing entry for the
same name. -/
def setSession (reg : Registry) (name : String) (st : SessionStatus) : Registry :=
  ⟨(name, st) :: reg.sessions.filter (fun p => !(p.1 == name))⟩

def removeSession (reg : Registry) (name : String) : Registry :=
  ⟨reg.sessions.filter (fun p => !(p.1 == name))⟩

/-- Modelled from the spec: `start(server_name)` — if the entry is
already `Running`, return success idempotently without side effects;
otherwise fetch and validate the startup config and spawn the transport
(abstracted as the `spawn` outcome), recording `Running` on success or
`Failed` with the captured error message on failure. -/
def start_mcp_server (reg : Registry) (name : String) (spawn : Except String Unit) :
    (Bool × String) × Registry :=
  match lookupSession reg name with
  | some SessionStatus.Running => ((true, "Server already running"), reg)
  | _ =>
    match spawn with
    | Except.ok _ => ((true, "Server started"), setSession reg name SessionStatus.Running)
    | Except.error e => ((false, e), setSession reg name SessionStatus.Failed)

/-- Modelled from the spec: `shutdown(server_name)` — close the
transport and remove the entry; shutting down an absent server succeeds
reporting that no action was needed. -/
def shutdown_mcp_server (reg : Registry) (name : String) : (Bool × String) × Registry :=
  match lookupSession reg name with
  | none => ((true, "No action needed"), reg)
  | some _ => ((true, "Server shut down"), removeSession reg name)

/-- Modelled from the spec: the point-in-time snapshot of server names
with status `Running`. -/
def list_running_servers (reg : Registry) : List String :=
  (reg.sessions.filter (fun p => p.2 == SessionStatus.Running)).map (·.1)

/-- Modelled from the spec: one queued background task — its `priority`
(lower value runs sooner), its enqueue sequence number (ties among equal
priorities break first-in-first-out), and its task id. -/
structure QueuedTask where
  priority : Int
  seq : Nat
  task_id : String
deriving DecidableEq, Repr

/-- Modelled from the spec: the priority-queue order — ascending
`priority`, ties broken by enqueue order. -/
def taskBefore (a b : QueuedTask) : Prop :=
  a.priority < b.priority ∨ (a.priority = b.priority ∧ a.seq ≤ b.seq)

instance : DecidableRel taskBefore := fun a b =>
  decidable_of_iff
    (a.priority < b.priority ∨ (a.priority = b.priority ∧ a.seq ≤ b.seq)) Iff.rfl

instance : IsTotal QueuedTask taskBefore :=
  ⟨fun a b => by unfold taskBefore; omega⟩

instance : IsTrans QueuedTask taskBefore :=
  ⟨fun a b c => by unfold taskBefore; omega⟩

/-- Modelled from the spec: enqueue a background task, stamping it with
the next sequence number and returning its place in the queue. -/
def enqueue (q : List QueuedTask) (counter : Nat) (p : Int) (id : String) :
    List QueuedTask × Nat :=
  (q ++ [⟨p, counter, id⟩], counter + 1)

/-- Modelled from the spec: the order in which the worker pool drains a
queue of pending tasks once workers free up — each dequeue takes the
highest-priority ready task (lowest `priority` value, then lowest
sequence number). -/
def drainOrder (q : List QueuedTask) : List QueuedTask :=
  q.insertionSort taskBefore

end RuntimeEngine

namespace McpServer

/-- The `{"success": ..., "result": ..., "error": ...}` dictionary the
`execute_tool` handler returns (`src/mcp_runtime/mcp_server.py`). -/
structure ExecuteToolResponse where
  success : Bool
  result : Option String
  error : Option String
deriving DecidableEq, Repr

/-- `execute_tool` from `src/mcp_runtime/mcp_server.py`: the engine call
`runtime_engine.execute_tool(...)` (whose outcome — a result payload or
a raised error — is the `outcome` argument) is wrapped in
`try/except Exception`: success yields `{"success": True, "result": r}`,
any raised error yields `{"success": False, "error": str(e)}`. -/
def execute_tool (outcome : Except String String) : ExecuteToolResponse :=
  match outcome with
  | Except.ok r => ⟨true, some r, none⟩
  | Except.error e => ⟨false, none, some e⟩

/-- The `{"success": ..., "content": ..., "error": ...}` dictionary the
`get_content` handler returns (`src/mcp_runtime/mcp_server.py`). -/
structure GetContentResponse where
  success : Bool
  content : Option ContentManager.ContentBlock
  error : Option String
deriving DecidableEq, Repr

/-- `get_content` from `src/mcp_runtime/mcp_server.py`: calls
`runtime_engine.content_manager.get_content(ref_id, chunk_index)` inside
`try/except Exception`, returning `{"success": True, "content": c}` on
success and `{"success": False, "error": str(e)}` when the store call
fails. -/
def get_content (st : ContentManager.ContentStore) (ref_id : Nat)
    (chunk_index : Option Nat) : GetContentResponse :=
  match ContentManager.get_content st ref_id chunk_index with
  | Except.ok c => ⟨true, some c, none⟩
  | Except.error e => ⟨false, none, some e⟩

/-- The `{"status": ..., "result": ..., "error": ...}` dictionary the
`poll_task_result` handler returns (`src/mcp_runtime/mcp_server.py`). -/
structure PollResponse where
  status : String
  result : Option String
  error : Option String
deriving DecidableEq, Repr

/-- Python truthiness of the handler's `if error:` test: `None` and the
empty string are falsy. -/
def truthyStr : Option String → Bool
  | none => false
  | some s => !s.isEmpty

/-- `poll_task_result` from `src/mcp_runtime/mcp_server.py`: destructure
the engine's `(is_done, result, error)` triple — a truthy error yields
`{"status": "error", "error": error}`, a done task yields
`{"status": "completed", "result": result}`, otherwise
`{"status": "running"}`. -/
def poll_task_result (ans : Bool × Option String × Option String) : PollResponse :=
  if truthyStr ans.2.2 then ⟨"error", none, ans.2.2⟩
  else if ans.1 then ⟨"completed", ans.2.1, none⟩
  else ⟨"running", none, none⟩

/-- `manage_server` from `src/mcp_runtime/mcp_server.py`: dispatch on
the `action` string — `"start"` calls the engine's
`start_mcp_server`, `"shutdown"` calls `shutdown_mcp_server`, and any
other action returns `{"success": False, "message": "Invalid action:
..."}` without touching the engine.  The two engine operations are
passed in as `startFn`/`shutdownFn` so that their non-involvement in the
invalid branch is visible in the statement. -/
def manage_server
    (startFn shutdownFn : RuntimeEngine.Registry → String → (Bool × String) × RuntimeEngine.Registry)
    (reg : RuntimeEngine.Registry) (server_name action : String) :
    (Bool × String) × RuntimeEngine.Registry :=
  if action = "start" then startFn reg server_name
  else if action = "shutdown" then shutdownFn reg server_name
  else ((false, "Invalid action: " ++ action ++ ". Use 'start' or 'shutdown'"), reg)

end McpServer

namespace Mcpruntime

/-- The operations of the `semantic_router` entry point
(`src/mcpruntime/mcp_server.py`). -/
inductive RouterOperation where
  | search_tools
  | search_servers
  | get_server_info
  | get_server_tools
  | get_tool_details
  | list_servers
  | manage_server
  | list_running_servers
  | execute_tool
  | poll_task_result
  | get_content
  | get_statistics
deriving DecidableEq, Repr

/-- The `limit` value `semantic_router` forwards to the underlying
listing call, from `src/mcpruntime/mcp_server.py`: for
`get_server_tools` and `list_servers` it is
`limit if limit != 10 else 50`; every other operation forwards the
caller's limit unchanged. -/
def semantic_router_limit (op : RouterOperation) (limit : Int) : Int :=
  match op with
  | RouterOperation.get_server_tools => if limit ≠ 10 then limit else 50
  | RouterOperation.list_servers => if limit ≠ 10 then limit else 50
  | _ => limit

end Mcpruntime

/-! ## Chunking lemmas -/

namespace ContentManager

/-- Concatenating the chunks of a split recovers the original character
sequence. -/
theorem chunksOf_flatten (budget : Nat) (l : List Char) : (chunksOf budget l).flatten = l := by
  induction l using chunksOf.induct budget with
  | case1 => simp [chunksOf]
  | case2 c cs ih =>
    rw [chunksOf]
    simp only [List.flatten_cons, ih]
    exact List.take_append_drop _ _

/-- A positive budget splits a sequence of length `T` into exactly
`ceil(T / budget) = (T + budget - 1) / budget` chunks. -/
theorem chunksOf_length (budget : Nat) (hb : 0 < budget) (l : List Char) :
    (chunksOf budget l).length = (l.length + budget - 1) / budget := by
  have hmax : max budget 1 = budget := by omega
  induction l using chunksOf.induct budget with
  | case1 =>
    rw [chunksOf]
    simp only [List.length_nil]
    rw [Nat.div_eq_of_lt (by omega)]
  | case2 c cs ih =>
    rw [hmax] at ih
    simp only [List.length_drop, List.length_cons] at ih
    rw [chunksOf]
    simp only [List.length_cons, hmax, ih]
    rcases Nat.lt_or_ge cs.length budget with hc | hc
    · have h1 : cs.length + 1 - budget = 0 := by omega
      rw [h1, Nat.div_eq_of_lt (by omega)]
      have h2 : cs.length + 1 + budget - 1 = cs.length + budget := by omega
      rw [h2, Nat.add_div_right _ hb, Nat.div_eq_of_lt hc]
    · have h1 : cs.length + 1 - budget + budget - 1 = cs.length := by omega
      have h2 : cs.length + 1 + budget - 1 = cs.length + budget := by omega
      rw [h1, h2, Nat.add_div_right _ hb]

/-- Every chunk of a split respects the budget. -/
theorem chunksOf_size_le (budget : Nat) (hb : 0 < budget) (l : List Char) :
    ∀ c ∈ chunksOf budget l, c.length ≤ budget := by
  induction l using chunksOf.induct budget with
  | case1 => simp [chunksOf]
  | case2 c cs ih =>
    rw [chunksOf]
    intro d hd
    rcases List.mem_cons.1 hd with h | h
    · subst h
      simp only [List.length_take]
      omega
    · exact ih d h

theorem foldl_append_mk (l : List (List Char)) (acc : List Char) :
    (l.map String.mk).foldl (fun r s => r ++ s) (String.mk acc)
      = String.mk (acc ++ l.flatten) := by
  induction l generalizing acc with
  | nil => simp
  | cons a l ih =>
    simp only [List.map_cons, List.foldl_cons]
    have h : String.mk acc ++ String.mk a = String.mk (acc ++ a) := rfl
    rw [h, ih]
    simp

theorem join_map_mk (l : List (List Char)) :
    String.join (l.map String.mk) = String.mk l.flatten := by
  have h := foldl_append_mk l []
  simpa [String.join] using h

/-- Joining the string chunks of an over-budget text recovers the
original string. -/
theorem join_textChunks (budget : Nat) (s : String) :
    String.join (textChunks budget s) = s := by
  rw [textChunks, join_map_mk, chunksOf_flatten]

theorem join_singleton (d : String) : String.join [d] = d := rfl

/-- Offloading a single over-budget text block: the returned sequence is
the single marker block and the store gains the chunked entry under the
fresh id. -/
theorem process_single_text_over (budget : Nat) (st : ContentStore) (s : String)
    (hover : budget < estimateSize s) :
    process_content budget st [ContentBlock.text s]
      = ([ContentBlock.text (textMarker st.nextId (estimateSize s) (textChunks budget s).length)],
         ⟨(st.nextId, ⟨"text", textChunks budget s, "text/plain"⟩) :: st.entries, st.nextId + 1⟩) := by
  simp [process_content, processBlock, storeEntry, Nat.not_le.2 hover]

/-- Looking up the most recently stored id finds its entry. -/
theorem getEntry_head (entries : List (Nat × ContentEntry)) (rid nid : Nat) (e : ContentEntry) :
    getEntry ⟨(rid, e) :: entries, nid⟩ rid = some e := by
  simp [getEntry, List.find?]

/-- Processing only within-budget text blocks leaves the store
untouched (no reference is allocated for a passed-through block). -/
theorem process_content_store_frame (budget : Nat) (st : ContentStore)
    (blocks : List ContentBlock)
    (hall : ∀ b ∈ blocks, ∃ s, b = ContentBlock.text s ∧ estimateSize s ≤ budget) :
    (process_content budget st blocks).2 = st := by
  induction blocks generalizing st with
  | nil => rfl
  | cons b rest ih =>
    rcases hall b (List.mem_cons_self b rest) with ⟨s, rfl, hle⟩
    simp only [process_content]
    rw [show processBlock budget st (ContentBlock.text s) = (ContentBlock.text s, st) from by
      simp [processBlock, hle]]
    exact ih st (fun b hb => hall b (List.mem_cons_of_mem _ hb))

end ContentManager

/-! ## Session-registry lemmas -/

namespace RuntimeEngine

theorem lookupSession_setSession (reg : Registry) (name : String) (st : SessionStatus) :
    lookupSession (setSession reg name st) name = some st := by
  simp [lookupSession, setSession, List.find?]

theorem count_zero_of_removed (l : List (String × SessionStatus)) (name : String) :
    (((l.filter (fun p => !(p.1 == name))).filter
        (fun p => p.2 == SessionStatus.Running)).map Prod.fst).count name = 0 := by
  rw [List.count_eq_zero]
  intro hmem
  rcases List.mem_map.1 hmem with ⟨q, hq, hq1⟩
  have hq2 := (List.mem_filter.1 (List.mem_filter.1 hq).1).2
  rw [hq1] at hq2
  simp at hq2

/-- After recording `name` as `Running`, the running snapshot lists
`name` exactly once. -/
theorem count_list_running_setSession (reg : Registry) (name : String) :
    (list_running_servers (setSession reg name SessionStatus.Running)).count name = 1 := by
  simp only [list_running_servers, setSession]
  rw [List.filter_cons]
  simp only [beq_self_eq_true, if_pos]
  rw [List.map_cons, List.count_cons]
  rw [count_zero_of_removed]
  simp

/-- In a registry with no duplicate names whose `name` session is
`Running`, the running snapshot lists `name` exactly once. -/
theorem running_count_aux (l : List (String × SessionStatus)) (name : String)
    (hnd : (l.map Prod.fst).Nodup)
    (hlk : ((l.find? (fun p => p.1 == name)).map (·.2)) = some SessionStatus.Running) :
    ((l.filter (fun p => p.2 == SessionStatus.Running)).map Prod.fst).count name = 1 := by
  induction l with
  | nil => simp at hlk
  | cons p l ih =>
    simp only [List.map_cons, List.nodup_cons] at hnd
    obtain ⟨hp, hnd'⟩ := hnd
    by_cases hkey : p.1 == name
    · simp only [List.find?_cons, hkey, Option.map_some] at hlk
      have hrun : p.2 = SessionStatus.Running := by
        injection hlk
      have hname : p.1 = name := by
        exact eq_of_beq hkey
      rw [List.filter_cons]
      simp only [hrun, beq_self_eq_true, if_pos]
      rw [List.map_cons, List.count_cons]
      have hzero : ((l.filter (fun p => p.2 == SessionStatus.Running)).map Prod.fst).count name
          = 0 := by
        rw [List.count_eq_zero]
        intro hmem
        rcases List.mem_map.1 hmem with ⟨q, hq, hq1⟩
        apply hp
        rw [← hname] at hq1
        rw [← hq1]
        exact List.mem_map_of_mem Prod.fst (List.mem_filter.1 hq).1
      rw [hzero, hname]
      simp
    · have hkf : (p.1 == name) = false := by simpa using hkey
      simp only [List.find?_cons, hkf] at hlk
      have htail := ih hnd' hlk
      rw [List.filter_cons]
      by_cases hrun : p.2 == SessionStatus.Running
      · simp only [hrun, if_pos]
        rw [List.map_cons, List.count_cons, htail]
        simp [hkf]
      · simp only [hrun]
        simpa using htail

end RuntimeEngine

/-! ## The claims -/

open ContentManager in
/-- Claim C1: for every content block offloaded by `process_content`
under any budget, and for every stored chunk of the resulting entry,
`get_content ref_id chunk_index` returns exactly the text/bytes stored
for that chunk, and `get_content ref_id` (index omitted) reconstructs
the original content — the offload/retrieve pair is a lossless round
trip, for over-budget text blocks as well as image and audio blocks. -/
theorem content_round_trip (budget : Nat) (st : ContentStore) :
    (∀ s : String, budget < estimateSize s →
       getEntry (process_content budget st [ContentBlock.text s]).2 st.nextId
           = some ⟨"text", textChunks budget s, "text/plain"⟩ ∧
       (∀ i : Nat, ∀ hi : i < (textChunks budget s).length,
          get_content (process_content budget st [ContentBlock.text s]).2 st.nextId (some i)
            = Except.ok (ContentBlock.text ((textChunks budget s).get ⟨i, hi⟩))) ∧
       get_content (process_content budget st [ContentBlock.text s]).2 st.nextId none
            = Except.ok (ContentBlock.text s)) ∧
    (∀ data mime : String,
       get_content (process_content budget st [ContentBlock.image data mime]).2 st.nextId (some 0)
           = Except.ok (ContentBlock.image data mime) ∧
       get_content (process_content budget st [ContentBlock.image data mime]).2 st.nextId none
           = Except.ok (ContentBlock.image data mime)) ∧
    (∀ data mime : String,
       get_content (process_content budget st [ContentBlock.audio data mime]).2 st.nextId (some 0)
           = Except.ok (ContentBlock.audio data mime) ∧
       get_content (process_content budget st [ContentBlock.audio data mime]).2 st.nextId none
           = Except.ok (ContentBlock.audio data mime)) := by
  refine ⟨?_, ?_, ?_⟩
  · intro s hover
    rw [process_single_text_over budget st s hover]
    refine ⟨getEntry_head _ _ _ _, ?_, ?_⟩
    · intro i hi
      rw [get_content, getEntry_head]
      simp [chunkPayload, hi]
    · rw [get_content, getEntry_head]
      simp [chunkPayload, join_textChunks]
  · intro data mime
    constructor
    · rw [show (process_content budget st [ContentBlock.image data mime]).2
            = ⟨(st.nextId, ⟨"image", [data], mime⟩) :: st.entries, st.nextId + 1⟩ from by
          simp [process_content, processBlock, storeEntry]]
      rw [get_content, getEntry_head]
      simp [chunkPayload, join_singleton]
    · rw [show (process_content budget st [ContentBlock.image data mime]).2
            = ⟨(st.nextId, ⟨"image", [data], mime⟩) :: st.entries, st.nextId + 1⟩ from by
          simp [process_content, processBlock, storeEntry]]
      rw [get_content, getEntry_head]
      simp [chunkPayload, join_singleton]
  · intro data mime
    constructor
    · rw [show (process_content budget st [ContentBlock.audio data mime]).2
            = ⟨(st.nextId, ⟨"audio", [data], mime⟩) :: st.entries, st.nextId + 1⟩ from by
          simp [process_content, processBlock, storeEntry]]
      rw [get_content, getEntry_head]
      simp [chunkPayload, join_singleton]
    · rw [show (process_content budget st [ContentBlock.audio data mime]).2
            = ⟨(st.nextId, ⟨"audio", [data], mime⟩) :: st.entries, st.nextId + 1⟩ from by
          simp [process_content, processBlock, storeEntry]]
      rw [get_content, getEntry_head]
      simp [chunkPayload, join_singleton]

open ContentManager in
/-- Claim C2: a text block whose estimated size `T` exceeds a positive
budget `B` is split into exactly `ceil(T / B)` ordered chunks, each of
estimated size at most `B`; the block is replaced by a single marker
block stating the reference id and the truncation summary (original
size, chunk count), and the chunks are persisted under the fresh
reference id. -/
theorem chunk_count_law (budget : Nat) (st : ContentStore) (s : String)
    (hb : 0 < budget) (hover : budget < estimateSize s) :
    (process_content budget st [ContentBlock.text s]).1
        = [ContentBlock.text (textMarker st.nextId (estimateSize s)
            ((estimateSize s + budget - 1) / budget))] ∧
    (textChunks budget s).length = (estimateSize s + budget - 1) / budget ∧
    (∀ c ∈ textChunks budget s, estimateSize c ≤ budget) ∧
    getEntry (process_content budget st [ContentBlock.text s]).2 st.nextId
        = some ⟨"text", textChunks budget s, "text/plain"⟩ := by
  have hlen : (textChunks budget s).length = (estimateSize s + budget - 1) / budget := by
    rw [textChunks, List.length_map, chunksOf_length budget hb]
    rfl
  refine ⟨?_, hlen, ?_, ?_⟩
  · rw [process_single_text_over budget st s hover, hlen]
  · intro c hc
    rw [textChunks] at hc
    rcases List.mem_map.1 hc with ⟨cl, hcl, rfl⟩
    have h := chunksOf_size_le budget hb s.data cl hcl
    simpa [estimateSize] using h
  · rw [process_single_text_over budget st s hover]
    exact getEntry_head _ _ _ _

open ContentManager in
/-- Witness for claim C2 at `budget = 2`, `s = "hello"`: the 5-character
text is split into `ceil(5 / 2) = 3` chunks of at most 2 characters. -/
theorem chunk_count_law_witness :
    (process_content 2 emptyStore [ContentBlock.text "hello"]).1
        = [ContentBlock.text (textMarker emptyStore.nextId (estimateSize "hello")
            ((estimateSize "hello" + 2 - 1) / 2))] ∧
    (textChunks 2 "hello").length = (estimateSize "hello" + 2 - 1) / 2 ∧
    (∀ c ∈ textChunks 2 "hello", estimateSize c ≤ 2) ∧
    getEntry (process_content 2 emptyStore [ContentBlock.text "hello"]).2 emptyStore.nextId
        = some ⟨"text", textChunks 2 "hello", "text/plain"⟩ :=
  chunk_count_law 2 emptyStore "hello" (by decide) (by decide)

/-- Counterexample to claim C3 as stated: a `StartupConfig` with the
network (non-stdio) transport `"sse"` and no `url` passes
`validate_transport` — the validator only rejects a missing url for
transport `"http"` (`src/mcp_runtime/models.py` line 19). -/
theorem sse_no_url_accepted :
    validate_transport sseConfigNoUrl = Except.ok sseConfigNoUrl := rfl

/-- Claim C3 as amended: constructing a `StartupConfig` with transport
`"stdio"` and no (or an empty) `command` fails validation with the
message requiring `command` for stdio transport; one with transport
`"http"` and no `url` fails with the message requiring `url`; the
rejection happens in the validator that runs at construction, before any
spawn attempt; and a config satisfying the requirement for its transport
kind is accepted unchanged. -/
theorem validate_transport_cases :
    (∀ c : McpStartupConfig, c.transport = "stdio" → isFalsy c.command = true →
        validate_transport c = Except.error "stdio transport requires 'command'") ∧
    (∀ c : McpStartupConfig, c.transport = "http" → isFalsy c.url = true →
        validate_transport c = Except.error "http transport requires 'url'") ∧
    (∀ c : McpStartupConfig, c.transport = "stdio" → isFalsy c.command = false →
        validate_transport c = Except.ok c) ∧
    (∀ c : McpStartupConfig, c.transport = "http" → isFalsy c.url = false →
        validate_transport c = Except.ok c) := by
  refine ⟨?_, ?_, ?_, ?_⟩ <;> intro c h1 h2 <;> simp [validate_transport, h1, h2]

open RuntimeEngine in
/-- Claim C4: `poll` behaves by case on the task's state — an unknown id
fails `TaskNotFound`; a `Queued` or `Running` task yields "not done"
with no result and no error; a `Completed` task yields the stored
result; a `Failed` task yields the stored error message; polling never
mutates the ledger, so repeated polls of a terminal task return the same
answer; and the `poll_task_result` tool handler maps the engine's triple
to the `completed`/`error`/`running` status dictionaries. -/
theorem poll_cases :
    (∀ (L : TaskLedger) (id : String), lookupTask L id = none →
        poll_task_result L id = (Except.error "TaskNotFound", L)) ∧
    (∀ (L : TaskLedger) (id : String), lookupTask L id = some TaskStatus.Queued →
        poll_task_result L id = (Except.ok (false, none, none), L)) ∧
    (∀ (L : TaskLedger) (id : String), lookupTask L id = some TaskStatus.Running →
        poll_task_result L id = (Except.ok (false, none, none), L)) ∧
    (∀ (L : TaskLedger) (id r : String), lookupTask L id = some (TaskStatus.Completed r) →
        poll_task_result L id = (Except.ok (true, some r, none), L)) ∧
    (∀ (L : TaskLedger) (id e : String), lookupTask L id = some (TaskStatus.Failed e) →
        poll_task_result L id = (Except.ok (true, none, some e), L)) ∧
    (∀ (L : TaskLedger) (id : String), (poll_task_result L id).2 = L) ∧
    (∀ (L : TaskLedger) (id : String),
        poll_task_result (poll_task_result L id).2 id = poll_task_result L id) ∧
    (∀ r : String, McpServer.poll_task_result (true, some r, none)
        = ⟨"completed", some r, none⟩) ∧
    (∀ e : String, e ≠ "" → McpServer.poll_task_result (true, none, some e)
        = ⟨"error", none, some e⟩) ∧
    (McpServer.poll_task_result (false, none, none) = ⟨"running", none, none⟩) := by
  have hsnd : ∀ (L : TaskLedger) (id : String), (poll_task_result L id).2 = L := by
    intro L id
    rw [poll_task_result]
    rcases lookupTask L id with _ | st
    · rfl
    · rcases st <;> rfl
  refine ⟨?_, ?_, ?_, ?_, ?_, hsnd, ?_, ?_, ?_, ?_⟩
  · intro L id h; rw [poll_task_result, h]
  · intro L id h; rw [poll_task_result, h]
  · intro L id h; rw [poll_task_result, h]
  · intro L id r h; rw [poll_task_result, h]
  · intro L id e h; rw [poll_task_result, h]
  · intro L id; rw [hsnd]
  · intro r; simp [McpServer.poll_task_result, McpServer.truthyStr]
  · intro e he
    have h : e.isEmpty = false := by
      rcases h : e.isEmpty
      · rfl
      · exact absurd ((String.isEmpty_iff e).1 h) he
    simp [McpServer.poll_task_result, McpServer.truthyStr, h]
  · simp [McpServer.poll_task_result, McpServer.truthyStr]

/-- Claim C5: the tool-surface handlers `execute_tool` and `get_content`
are total on every engine outcome — a raised engine error is returned as
a structured failure value (`success = false` with the error's message)
to the immediate caller rather than propagating, and a successful call
returns `success = true` with the result/content. -/
theorem handlers_structured (st : ContentManager.ContentStore) :
    (∀ r : String, McpServer.execute_tool (Except.ok r)
        = { success := true, result := some r, error := none }) ∧
    (∀ e : String, McpServer.execute_tool (Except.error e)
        = { success := false, result := none, error := some e }) ∧
    (∀ (rid : Nat) (idx : Option Nat),
        (∃ c, ContentManager.get_content st rid idx = Except.ok c ∧
              McpServer.get_content st rid idx
                = { success := true, content := some c, error := none }) ∨
        (∃ e, ContentManager.get_content st rid idx = Except.error e ∧
              McpServer.get_content st rid idx
                = { success := false, content := none, error := some e })) := by
  refine ⟨fun r => rfl, fun e => rfl, ?_⟩
  intro rid idx
  rcases h : ContentManager.get_content st rid idx with e | c
  · right; exact ⟨e, rfl, by rw [McpServer.get_content, h]⟩
  · left; exact ⟨c, rfl, by rw [McpServer.get_content, h]⟩

open RuntimeEngine in
/-- Claim C6: the background queue is drained in ascending priority
order — if `t1` has a lower priority value than `t2` (or equal priority
and an earlier enqueue sequence number), `t1` is dequeued, and hence
completes, before `t2`. -/
theorem drain_priority_order (q : List QueuedTask) (t1 t2 : QueuedTask)
    (h1 : t1 ∈ q) (h2 : t2 ∈ q)
    (hlt : t1.priority < t2.priority ∨ (t1.priority = t2.priority ∧ t1.seq < t2.seq)) :
    (drainOrder q).indexOf t1 < (drainOrder q).indexOf t2 := by
  have hperm := List.perm_insertionSort taskBefore q
  have hs : List.Sorted taskBefore (drainOrder q) := List.sorted_insertionSort taskBefore q
  have m1 : t1 ∈ drainOrder q := hperm.mem_iff.2 h1
  have m2 : t2 ∈ drainOrder q := hperm.mem_iff.2 h2
  have hne : t1 ≠ t2 := by
    intro he
    rw [he] at hlt
    rcases hlt with h | ⟨-, h⟩ <;> omega
  have i1 : (drainOrder q).indexOf t1 < (drainOrder q).length := List.indexOf_lt_length.2 m1
  have i2 : (drainOrder q).indexOf t2 < (drainOrder q).length := List.indexOf_lt_length.2 m2
  have g1 : (drainOrder q).get ⟨(drainOrder q).indexOf t1, i1⟩ = t1 := List.indexOf_get i1
  have g2 : (drainOrder q).get ⟨(drainOrder q).indexOf t2, i2⟩ = t2 := List.indexOf_get i2
  rcases Nat.lt_trichotomy ((drainOrder q).indexOf t1) ((drainOrder q).indexOf t2) with h | h | h
  · exact h
  · exfalso
    apply hne
    rw [← g1, ← g2]
    exact congrArg _ (Fin.ext h)
  · exfalso
    have hb : taskBefore ((drainOrder q).get ⟨(drainOrder q).indexOf t2, i2⟩)
        ((drainOrder q).get ⟨(drainOrder q).indexOf t1, i1⟩) :=
      hs.rel_get_of_lt h
    rw [g1, g2] at hb
    unfold taskBefore at hb
    rcases hlt with hl | ⟨hl, hl2⟩ <;> rcases hb with hb | ⟨hb, hb2⟩ <;> omega

open RuntimeEngine in
/-- Witness for claim C6 on a concrete three-task queue: the priority-1
task enqueued second is dequeued before the priority-2 task enqueued
first. -/
theorem drain_priority_order_witness :
    (drainOrder [⟨2, 0, "a"⟩, ⟨1, 1, "b"⟩, ⟨1, 2, "c"⟩]).indexOf ⟨1, 1, "b"⟩
      < (drainOrder [⟨2, 0, "a"⟩, ⟨1, 1, "b"⟩, ⟨1, 2, "c"⟩]).indexOf ⟨2, 0, "a"⟩ :=
  drain_priority_order [⟨2, 0, "a"⟩, ⟨1, 1, "b"⟩, ⟨1, 2, "c"⟩] ⟨1, 1, "b"⟩ ⟨2, 0, "a"⟩
    (by decide) (by decide) (Or.inl (by decide))

open RuntimeEngine in
/-- Claim C7: `start` is idempotent per server name — starting a name
whose session is already `Running` returns success and changes no
registry state, whatever the spawn outcome would have been; and after
two successive successful starts of the same name (in a registry without
duplicate names) the second call is a no-op and the running snapshot
contains the name exactly once. -/
theorem start_idempotent (reg : Registry) (name : String)
    (hkeys : (reg.sessions.map Prod.fst).Nodup) :
    (∀ spawn, lookupSession reg name = some SessionStatus.Running →
        start_mcp_server reg name spawn = ((true, "Server already running"), reg)) ∧
    ((start_mcp_server reg name (Except.ok ())).1.1 = true ∧
     (∀ spawn2 : Except String Unit,
        (start_mcp_server (start_mcp_server reg name (Except.ok ())).2 name spawn2).1.1 = true ∧
        (start_mcp_server (start_mcp_server reg name (Except.ok ())).2 name spawn2).2
            = (start_mcp_server reg name (Except.ok ())).2) ∧
     (list_running_servers (start_mcp_server reg name (Except.ok ())).2).count name = 1) := by
  have hidem : ∀ (r : Registry) (spawn : Except String Unit),
      lookupSession r name = some SessionStatus.Running →
      start_mcp_server r name spawn = ((true, "Server already running"), r) := by
    intro r spawn h
    simp [start_mcp_server, h]
  refine ⟨fun spawn h => hidem reg spawn h, ?_⟩
  rcases hl : lookupSession reg name with _ | st
  · have hstep : start_mcp_server reg name (Except.ok ())
        = ((true, "Server started"), setSession reg name SessionStatus.Running) := by
      simp [start_mcp_server, hl]
    rw [hstep]
    refine ⟨rfl, ?_, count_list_running_setSession reg name⟩
    intro spawn2
    rw [hidem _ spawn2 (lookupSession_setSession reg name _)]
    exact ⟨rfl, rfl⟩
  · cases st with
    | Running =>
      rw [hidem reg _ hl]
      refine ⟨rfl, ?_, ?_⟩
      · intro spawn2
        rw [hidem reg spawn2 hl]
        exact ⟨rfl, rfl⟩
      · exact running_count_aux reg.sessions name hkeys hl
    | Starting =>
      have hstep : start_mcp_server reg name (Except.ok ())
          = ((true, "Server started"), setSession reg name SessionStatus.Running) := by
        simp [start_mcp_server, hl]
      rw [hstep]
      refine ⟨rfl, ?_, count_list_running_setSession reg name⟩
      intro spawn2
      rw [hidem _ spawn2 (lookupSession_setSession reg name _)]
      exact ⟨rfl, rfl⟩
    | Failed =>
      have hstep : start_mcp_server reg name (Except.ok ())
          = ((true, "Server started"), setSession reg name SessionStatus.Running) := by
        simp [start_mcp_server, hl]
      rw [hstep]
      refine ⟨rfl, ?_, count_list_running_setSession reg name⟩
      intro spawn2
      rw [hidem _ spawn2 (lookupSession_setSession reg name _)]
      exact ⟨rfl, rfl⟩
    | Stopped =>
      have hstep : start_mcp_server reg name (Except.ok ())
          = ((true, "Server started"), setSession reg name SessionStatus.Running) := by
        simp [start_mcp_server, hl]
      rw [hstep]
      refine ⟨rfl, ?_, count_list_running_setSession reg name⟩
      intro spawn2
      rw [hidem _ spawn2 (lookupSession_setSession reg name _)]
      exact ⟨rfl, rfl⟩

open RuntimeEngine in
/-- Witness for claim C7 on the empty registry and name `"svc"`. -/
theorem start_idempotent_witness :
    (∀ spawn, lookupSession ⟨[]⟩ "svc" = some SessionStatus.Running →
        start_mcp_server ⟨[]⟩ "svc" spawn = ((true, "Server already running"), ⟨[]⟩)) ∧
    ((start_mcp_server ⟨[]⟩ "svc" (Except.ok ())).1.1 = true ∧
     (∀ spawn2 : Except String Unit,
        (start_mcp_server (start_mcp_server ⟨[]⟩ "svc" (Except.ok ())).2 "svc" spawn2).1.1
            = true ∧
        (start_mcp_server (start_mcp_server ⟨[]⟩ "svc" (Except.ok ())).2 "svc" spawn2).2
            = (start_mcp_server ⟨[]⟩ "svc" (Except.ok ())).2) ∧
     (list_running_servers (start_mcp_server ⟨[]⟩ "svc" (Except.ok ())).2).count "svc" = 1) :=
  start_idempotent ⟨[]⟩ "svc" (by decide)

open ContentManager in
/-- Claim C8: `process_content` returns a sequence of the same length as
its input; every text block whose estimated size is within the budget
appears unchanged at its original position; and when every block is a
within-budget text block the store is untouched (no reference
allocated). -/
theorem process_content_shape (budget : Nat) (st : ContentStore)
    (blocks : List ContentBlock) :
    ((process_content budget st blocks).1.length = blocks.length) ∧
    List.Forall₂ (fun orig res => ∀ s : String, orig = ContentBlock.text s →
        estimateSize s ≤ budget → res = orig) blocks (process_content budget st blocks).1 ∧
    ((∀ b ∈ blocks, ∃ s, b = ContentBlock.text s ∧ estimateSize s ≤ budget) →
        (process_content budget st blocks).2 = st) := by
  refine ⟨?_, ?_, process_content_store_frame budget st blocks⟩
  · induction blocks generalizing st with
    | nil => simp [process_content]
    | cons b rest ih =>
      simp only [process_content, List.length_cons]
      exact congrArg (· + 1) (ih _)
  · induction blocks generalizing st with
    | nil => simp [process_content]
    | cons b rest ih =>
      simp only [process_content]
      refine List.Forall₂.cons ?_ (ih _)
      intro s hs hle
      subst hs
      simp [processBlock, hle]

open Mcpruntime in
/-- Claim C9: in `semantic_router`, for the operations `list_servers`
and `get_server_tools`, a caller-supplied limit of exactly 10 is
replaced by 50 before delegating, so the effective limit is never 10 for
these two operations; every other limit value — and every other
operation's limit — is passed through unchanged. -/
theorem router_limit_behavior :
    (semantic_router_limit RouterOperation.get_server_tools 10 = 50 ∧
     semantic_router_limit RouterOperation.list_servers 10 = 50) ∧
    (∀ l : Int, l ≠ 10 →
        semantic_router_limit RouterOperation.get_server_tools l = l ∧
        semantic_router_limit RouterOperation.list_servers l = l) ∧
    (∀ l : Int, semantic_router_limit RouterOperation.get_server_tools l ≠ 10 ∧
        semantic_router_limit RouterOperation.list_servers l ≠ 10) ∧
    (∀ (op : RouterOperation) (l : Int), op ≠ RouterOperation.get_server_tools →
        op ≠ RouterOperation.list_servers → semantic_router_limit op l = l) := by
  refine ⟨⟨rfl, rfl⟩, ?_, ?_, ?_⟩
  · intro l hl
    constructor <;> simp [semantic_router_limit, hl]
  · intro l
    rcases eq_or_ne l 10 with h | h
    · subst h
      constructor <;> decide
    · constructor <;> simp [semantic_router_limit, h]
  · intro op l h1 h2
    cases op <;> simp_all [semantic_router_limit]

open McpServer RuntimeEngine in
/-- Claim C10: `manage_server` with any action other than `"start"` and
`"shutdown"` returns `success = false` with a message naming the invalid
action, leaves the registry unchanged, and does not invoke the runtime
engine at all — its result is independent of the engine operations it
was given. -/
theorem manage_invalid_action
    (startFn shutdownFn startFn2 shutdownFn2 :
      Registry → String → (Bool × String) × Registry)
    (reg : Registry) (server_name action : String)
    (h1 : action ≠ "start") (h2 : action ≠ "shutdown") :
    manage_server startFn shutdownFn reg server_name action
      = ((false, "Invalid action: " ++ action ++ ". Use 'start' or 'shutdown'"), reg) ∧
    manage_server startFn shutdownFn reg server_name action
      = manage_server startFn2 shutdownFn2 reg server_name action := by
  constructor <;> simp [McpServer.manage_server, h1, h2]

open McpServer RuntimeEngine in
/-- Witness for claim C10 at the concrete invalid action `"restart"`. -/
theorem manage_invalid_action_witness :
    manage_server (fun r _ => ((true, "ok"), r)) (fun r _ => ((true, "ok"), r))
        ⟨[]⟩ "svc" "restart"
      = ((false, "Invalid action: " ++ "restart" ++ ". Use 'start' or 'shutdown'"), ⟨[]⟩) ∧
    manage_server (fun r _ => ((true, "ok"), r)) (fun r _ => ((true, "ok"), r))
        ⟨[]⟩ "svc" "restart"
      = manage_server (fun r _ => ((false, "no"), r)) (fun r _ => ((false, "no"), r))
        ⟨[]⟩ "svc" "restart" :=
  manage_invalid_action _ _ _ _ ⟨[]⟩ "svc" "restart" (by decide) (by decide)
